import Mathlib

/-!
Verification of the tungstenite-rs handshake core (`src/handshake/machine.rs`,
`src/handshake/mod.rs`): the round-based handshake state machine, the attack
guard, the owning and non-owning drivers, and the accept-key derivation.
Bytes are modelled as `Nat`, machine words as `Nat` with explicit `% 2 ^ 32`,
fallible Rust code as `Except` / an explicit result type with a `panicked`
outcome for `assert!` failures, and the non-blocking stream as a script of
I/O outcomes.
-/

namespace Tungstenite

/-- A byte of the stream; the embedding does not need the `< 256` bound. -/
abbrev Byte := Nat

/-- Modelled from the spec: the protocol-error kind used by the reading
branch (the `Error` enum lives in `error.rs`, outside the provided sources);
the spec names "handshake-incomplete" as the zero-read terminal error. -/
inductive ProtocolError where
  | handshakeIncomplete
  deriving DecidableEq, Repr

/-- Modelled from the spec: the error kinds surfaced by this core
(`error.rs` is outside the provided sources).  `attackAttempt` is the flood
guard's rejection, `protocol` carries terminal protocol errors, `parse` the
parse contract's syntax errors, `role` the role contract's failures and
`io` other underlying I/O failures, each indexed by an abstract code. -/
inductive Error where
  | protocol (e : ProtocolError)
  | attackAttempt
  | parse (code : Nat)
  | role (code : Nat)
  | io (code : Nat)
  deriving DecidableEq, Repr

/-- Modelled from the spec: the growable read buffer (`crate::ReadBuffer`,
outside the provided sources).  `bytes` is the sequence of unconsumed bytes:
appended bytes go after existing unconsumed bytes, consuming `n` removes the
first `n` bytes, and the remainder converts into the tail. -/
structure ReadBuffer where
  bytes : List Byte
  deriving DecidableEq, Repr

/-- `ReadBuffer::new()`: created empty. -/
def ReadBuffer.new : ReadBuffer := ⟨[]⟩

/-- Appending one successful read's data after the unconsumed bytes. -/
def ReadBuffer.append (b : ReadBuffer) (data : List Byte) : ReadBuffer :=
  ⟨b.bytes ++ data⟩

/-- `Buf::chunk(&buf)`: the contiguous view of the unconsumed bytes. -/
def ReadBuffer.chunk (b : ReadBuffer) : List Byte := b.bytes

/-- `buf.advance(size)`: consume the first `size` unconsumed bytes. -/
def ReadBuffer.advance (b : ReadBuffer) (size : Nat) : ReadBuffer :=
  ⟨b.bytes.drop size⟩

/-- `buf.into_vec()`: the remaining unconsumed bytes, as the tail. -/
def ReadBuffer.into_vec (b : ReadBuffer) : List Byte := b.bytes

/-- Attack mitigation counters (`AttackCheck` in `machine.rs`). -/
structure AttackCheck where
  number_of_packets : Nat
  number_of_bytes : Nat
  deriving DecidableEq, Repr

/-- `AttackCheck::new()`. -/
def AttackCheck.new : AttackCheck := ⟨0, 0⟩

def MAX_BYTES : Nat := 65536
def MAX_PACKETS : Nat := 512
def MIN_PACKET_SIZE : Nat := 128
def MIN_PACKET_CHECK_THRESHOLD : Nat := 64

/-- `AttackCheck::check_incoming_packet_size`: increment both counters, then
apply the three rejection rules in order (total bytes, total packets,
small-packet ratio past the warm-up threshold); on success return the
updated counters. -/
def AttackCheck.check_incoming_packet_size (ac : AttackCheck) (size : Nat) :
    Except Error AttackCheck :=
  let packets := ac.number_of_packets + 1
  let bytes := ac.number_of_bytes + size
  if bytes > MAX_BYTES then
    .error .attackAttempt
  else if packets > MAX_PACKETS then
    .error .attackAttempt
  else if packets > MIN_PACKET_CHECK_THRESHOLD ∧
      packets * MIN_PACKET_SIZE > bytes then
    .error .attackAttempt
  else
    .ok ⟨packets, bytes⟩

/-- The three rejection rules of the guard, in the order the code tests
them: total-bytes ceiling, total-packets ceiling, small-packet ratio. -/
inductive GuardRule where
  | byteRule
  | packetRule
  | smallPacketRule
  deriving DecidableEq, Repr

/-- Which rule of `check_incoming_packet_size` fires on this observation
(following the same cascade as the code), if any. -/
def AttackCheck.firingRule (ac : AttackCheck) (size : Nat) :
    Option GuardRule :=
  let packets := ac.number_of_packets + 1
  let bytes := ac.number_of_bytes + size
  if bytes > MAX_BYTES then
    some .byteRule
  else if packets > MAX_PACKETS then
    some .packetRule
  else if packets > MIN_PACKET_CHECK_THRESHOLD ∧
      packets * MIN_PACKET_SIZE > bytes then
    some .smallPacketRule
  else
    none

/-- Drive one guard through a sequence of observed read sizes, updating the
counters at every call (as the code does before testing any rule). -/
def driveGuard (ac : AttackCheck) (sizes : List Nat) : AttackCheck :=
  sizes.foldl
    (fun g size => ⟨g.number_of_packets + 1, g.number_of_bytes + size⟩) ac

/-- Modelled from the spec: `std::io::Cursor<Vec<u8>>` (outside the provided
sources): a byte sequence plus a position marking how many bytes have been
flushed. -/
structure WCursor where
  payload : List Byte
  pos : Nat
  deriving DecidableEq, Repr

/-- `Buf::chunk(&buf)` on the cursor: the remaining unflushed bytes. -/
def WCursor.chunk (c : WCursor) : List Byte := c.payload.drop c.pos

/-- `buf.advance(size)` on the cursor. -/
def WCursor.advance (c : WCursor) (size : Nat) : WCursor :=
  ⟨c.payload, c.pos + size⟩

/-- `buf.has_remaining()`. -/
def WCursor.has_remaining (c : WCursor) : Bool := c.pos < c.payload.length

/-- `HandshakeState`: reading (buffer and guard) or writing (cursor). -/
inductive HandshakeState where
  | Reading (buf : ReadBuffer) (attack_check : AttackCheck)
  | Writing (buf : WCursor)
  deriving DecidableEq, Repr

/-- `HandshakeMachine`: a wrapper around the handshake state. -/
structure HandshakeMachine where
  state : HandshakeState
  deriving DecidableEq, Repr

/-- `HandshakeMachine::start_read()`. -/
def HandshakeMachine.start_read : HandshakeMachine :=
  ⟨.Reading ReadBuffer.new AttackCheck.new⟩

/-- `HandshakeMachine::start_write(data)`. -/
def HandshakeMachine.start_write (data : List Byte) : HandshakeMachine :=
  ⟨.Writing ⟨data, 0⟩⟩

/-- Modelled from the spec: one outcome of the stream's non-blocking read
(`buf.read_from(stream).no_block()`, with `read_from` and `no_block`
outside the provided sources): either "would block", or a transfer of the
given bytes, where an empty transfer is a read returning 0 bytes. -/
inductive ReadEvent where
  | wouldBlock
  | chunk (data : List Byte)
  deriving DecidableEq, Repr

/-- Modelled from the spec: one outcome of the stream's non-blocking write
(`stream.write(..).no_block()`): either "would block", or the stream
accepting up to `cap` bytes of the offered chunk, so the write call returns
`min cap (offered length)` as its transferred count. -/
inductive WriteEvent where
  | wouldBlock
  | accept (cap : Nat)
  deriving DecidableEq, Repr

/-- Modelled from the spec: the stream, as scripts of pending read and write
outcomes plus the sink of bytes the stream has accepted so far.  An
exhausted script behaves as "would block" (the stream is never ready
again). -/
structure MStream where
  reads : List ReadEvent
  writes : List WriteEvent
  sink : List Byte
  deriving DecidableEq, Repr

/-- The result of the stage (`StageResult` in `machine.rs`). -/
inductive StageResult (Obj : Type) where
  | doneReading (result : Obj) (tail : List Byte)
  | doneWriting
  deriving DecidableEq, Repr

/-- The result of the round (`RoundResult` in `machine.rs`). -/
inductive RoundResult (Obj : Type) where
  | wouldBlock (m : HandshakeMachine)
  | incomplete (m : HandshakeMachine)
  | stageFinished (s : StageResult Obj)
  deriving DecidableEq, Repr

/-- The outcome of a piece of Rust code: `Ok`, `Err`, or an `assert!`
failure (a panic). -/
inductive RustResult (α : Type) where
  | ok (a : α)
  | err (e : Error)
  | panicked
  deriving DecidableEq, Repr

/-- The parse contract (`TryParse::try_parse`): given the unconsumed bytes,
return `none` if incomplete, `some (size, obj)` on a complete object
consuming `size` bytes, or a syntax error. -/
def TryParseFn (Obj : Type) : Type :=
  List Byte → Except Error (Option (Nat × Obj))

/-- `HandshakeMachine::single_round`, over the scripted stream.
Reading: pop one read outcome — would-block returns the machine unchanged,
a zero-byte transfer is the terminal handshake-incomplete error, otherwise
the guard observes the count, then the parse contract is tried on the
buffer's unconsumed view.  Writing: `assert!(buf.has_remaining())`, pop one
write outcome — would-block returns the machine unchanged, otherwise
`assert!(size > 0)`, the accepted bytes go to the stream's sink, the cursor
advances, and remaining bytes decide `incomplete` versus stage finished. -/
def HandshakeMachine.single_round {Obj : Type} (P : TryParseFn Obj)
    (m : HandshakeMachine) (s : MStream) :
    RustResult (RoundResult Obj × MStream) :=
  match m.state with
  | .Reading buf attack_check =>
    match s.reads with
    | [] => .ok (.wouldBlock ⟨.Reading buf attack_check⟩, s)
    | ev :: rest =>
      let s1 : MStream := { s with reads := rest }
      match ev with
      | .wouldBlock => .ok (.wouldBlock ⟨.Reading buf attack_check⟩, s1)
      | .chunk data =>
        if data.length = 0 then
          .err (.protocol .handshakeIncomplete)
        else
          let buf1 := buf.append data
          match attack_check.check_incoming_packet_size data.length with
          | .error e => .err e
          | .ok ac1 =>
            match P buf1.chunk with
            | .error e => .err e
            | .ok (some (size, obj)) =>
              .ok (.stageFinished
                (.doneReading obj ((buf1.advance size).into_vec)), s1)
            | .ok none =>
              .ok (.incomplete ⟨.Reading buf1 ac1⟩, s1)
  | .Writing buf =>
    if buf.has_remaining then
      match s.writes with
      | [] => .ok (.wouldBlock ⟨.Writing buf⟩, s)
      | ev :: rest =>
        match ev with
        | .wouldBlock =>
          .ok (.wouldBlock ⟨.Writing buf⟩, { s with writes := rest })
        | .accept cap =>
          let size := min cap buf.chunk.length
          if size > 0 then
            let s1 : MStream :=
              { s with writes := rest, sink := s.sink ++ buf.chunk.take size }
            let buf1 := buf.advance size
            if buf1.has_remaining then
              .ok (.incomplete ⟨.Writing buf1⟩, s1)
            else
              .ok (.stageFinished .doneWriting, s1)
          else
            .panicked
    else
      .panicked

/-- Drive a machine through a script of read outcomes, one round per
outcome, retrying after would-block and looping after incomplete, until a
stage finishes (`ok (some st)`), an error or panic occurs, or the script is
exhausted mid-handshake (`ok none`). -/
def driveRead {Obj : Type} (P : TryParseFn Obj) (m : HandshakeMachine) :
    List ReadEvent → RustResult (Option (StageResult Obj))
  | [] => .ok none
  | ev :: rest =>
    match m.single_round P ⟨ev :: rest, [], []⟩ with
    | .panicked => .panicked
    | .err e => .err e
    | .ok (.wouldBlock m1, _) => driveRead P m1 rest
    | .ok (.incomplete m1, _) => driveRead P m1 rest
    | .ok (.stageFinished st, _) => .ok (some st)

/-- The trivial parse contract used to type writing rounds. -/
def noParse : TryParseFn Unit := fun _ => .ok none

/-- Drive a writing machine through a script of write outcomes, one round
per outcome, until the stage finishes, an error or panic occurs, or the
script is exhausted; also collect the bytes accepted by the stream across
the rounds and the per-round transferred-byte counts. -/
def driveWrite (m : HandshakeMachine) :
    List WriteEvent → RustResult (Option Unit) × List Byte × List Nat
  | [] => (.ok none, [], [])
  | ev :: rest =>
    match m.single_round noParse ⟨[], ev :: rest, []⟩ with
    | .panicked => (.panicked, [], [])
    | .err e => (.err e, [], [])
    | .ok (.wouldBlock m1, _) => driveWrite m1 rest
    | .ok (.incomplete m1, s1) =>
      let r := driveWrite m1 rest
      (r.1, s1.sink ++ r.2.1, s1.sink.length :: r.2.2)
    | .ok (.stageFinished _, s1) =>
      (.ok (some ()), s1.sink, [s1.sink.length])

/-- The capacities a write script offers: one per non-blocked outcome. -/
def caps (evs : List WriteEvent) : List Nat :=
  evs.filterMap fun ev =>
    match ev with
    | .wouldBlock => none
    | .accept cap => some cap

/-- Stage processing result (`ProcessingResult` in `mod.rs`): continue with
a new machine, or finish with the role's final result. -/
inductive ProcessingResult (R : Type) where
  | cont (m : HandshakeMachine)
  | done (r : R)

/-- The role contract (`HandshakeRole::stage_finished`), with the `&mut
self` mutation made explicit: from the current role state and a finished
stage, an error, or a processing result together with the new role state. -/
def RoleStep (ρ Obj R : Type) : Type :=
  ρ → StageResult Obj → Except Error (ProcessingResult R × ρ)

/-- A WebSocket handshake that doesn't own the underlying stream
(`NonOwningMidHandshake` in `mod.rs`). -/
structure NonOwningMidHandshake (ρ : Type) where
  role : ρ
  machine : HandshakeMachine

/-- The outcome of the non-owning driving loop: the role's final result,
an interruption carrying the suspended handshake, a terminal failure, or
a panic propagated out of the machine.  The borrowed stream stays with the
caller, so the driver returns it alongside in every case. -/
inductive NOutcome (ρ R : Type) where
  | ok (r : R)
  | interrupted (h : NonOwningMidHandshake ρ)
  | failure (e : Error)
  | panicked

/-- `NonOwningMidHandshake::handshake`: loop on `single_round`, returning
Interrupted on would-block, looping on incomplete, and consulting the
role's `stage_finished` on a finished stage; `fuel` bounds the loop and
`none` means it was exhausted. -/
def NonOwningMidHandshake.handshake {ρ Obj R : Type} (fuel : Nat)
    (step : RoleStep ρ Obj R) (P : TryParseFn Obj)
    (h : NonOwningMidHandshake ρ) (s : MStream) :
    Option (NOutcome ρ R × MStream) :=
  match fuel with
  | 0 => none
  | fuel + 1 =>
    match h.machine.single_round P s with
    | .panicked => some (.panicked, s)
    | .err e => some (.failure e, s)
    | .ok (.wouldBlock m, s1) => some (.interrupted ⟨h.role, m⟩, s1)
    | .ok (.incomplete m, s1) =>
      NonOwningMidHandshake.handshake fuel step P ⟨h.role, m⟩ s1
    | .ok (.stageFinished st, s1) =>
      match step h.role st with
      | .error e => some (.failure e, s1)
      | .ok (.cont m, role1) =>
        NonOwningMidHandshake.handshake fuel step P ⟨role1, m⟩ s1
      | .ok (.done r, _) => some (.ok r, s1)

/-- A WebSocket handshake owning the underlying stream (`MidHandshake` in
`mod.rs`). -/
structure MidHandshake (ρ : Type) where
  role : ρ
  machine : HandshakeMachine
  stream : MStream

/-- The outcome of the owning driving loop: the final result together with
the stream handed back, an interruption carrying the suspended handshake
(which owns the stream), a terminal failure, or a propagated panic. -/
inductive OOutcome (ρ R : Type) where
  | ok (r : R) (s : MStream)
  | interrupted (h : MidHandshake ρ)
  | failure (e : Error)
  | panicked

/-- `MidHandshake::handshake`: the owning flavor of the driving loop. -/
def MidHandshake.handshake {ρ Obj R : Type} (fuel : Nat)
    (step : RoleStep ρ Obj R) (P : TryParseFn Obj) (h : MidHandshake ρ) :
    Option (OOutcome ρ R) :=
  match fuel with
  | 0 => none
  | fuel + 1 =>
    match h.machine.single_round P h.stream with
    | .panicked => some .panicked
    | .err e => some (.failure e)
    | .ok (.wouldBlock m, s1) => some (.interrupted ⟨h.role, m, s1⟩)
    | .ok (.incomplete m, s1) =>
      MidHandshake.handshake fuel step P ⟨h.role, m, s1⟩
    | .ok (.stageFinished st, s1) =>
      match step h.role st with
      | .error e => some (.failure e)
      | .ok (.cont m, role1) =>
        MidHandshake.handshake fuel step P ⟨role1, m, s1⟩
      | .ok (.done r, _) => some (.ok r s1)

/-- `HandshakeError::from_non_owning`, extended pointwise to driving-loop
outcomes: repackage a non-owning outcome and the borrowed stream as the
owning outcome (the stream travels inside the result; a failure or panic
drops it). -/
def toOwning {ρ R : Type} (p : NOutcome ρ R × MStream) : OOutcome ρ R :=
  match p with
  | (.ok r, s) => .ok r s
  | (.interrupted h, s) => .interrupted ⟨h.role, h.machine, s⟩
  | (.failure e, _) => .failure e
  | (.panicked, _) => .panicked

/-- `2 ^ 32`, the modulus of the 32-bit words of the digest. -/
def M32 : Nat := 4294967296

/-- Left-rotation of a 32-bit word. -/
def rotl (n x : Nat) : Nat :=
  ((x <<< n) % M32) ||| ((x % M32) >>> (32 - n))

/-- Big-endian 4-byte encoding of a 32-bit word. -/
def beBytes4 (n : Nat) : List Byte :=
  [n / 2 ^ 24 % 256, n / 2 ^ 16 % 256, n / 2 ^ 8 % 256, n % 256]

/-- Big-endian 8-byte encoding of a 64-bit length. -/
def beBytes8 (n : Nat) : List Byte :=
  [n / 2 ^ 56 % 256, n / 2 ^ 48 % 256, n / 2 ^ 40 % 256, n / 2 ^ 32 % 256,
   n / 2 ^ 24 % 256, n / 2 ^ 16 % 256, n / 2 ^ 8 % 256, n % 256]

/-- SHA-1 padding: append `0x80`, zero bytes up to 56 mod 64, then the
bit length as 8 big-endian bytes. -/
def sha1pad (msg : List Byte) : List Byte :=
  let len := msg.length
  msg ++ [128] ++ List.replicate ((55 + 64 - len % 64) % 64) 0 ++
    beBytes8 (len * 8)

/-- Group bytes into big-endian 32-bit words. -/
def toWords : List Byte → List Nat
  | a :: b :: c :: d :: rest => (((a * 256 + b) * 256 + c) * 256 + d) :: toWords rest
  | _ => []

/-- Split a byte sequence into 64-byte blocks, with enough fuel. -/
def toBlocksF : Nat → List Byte → List (List Byte)
  | 0, _ => []
  | _, [] => []
  | fuel + 1, x :: rest =>
    (x :: rest).take 64 :: toBlocksF fuel ((x :: rest).drop 64)

/-- Split a byte sequence into 64-byte blocks. -/
def toBlocks (l : List Byte) : List (List Byte) := toBlocksF l.length l

/-- Extend a 16-word message block to the 80-word SHA-1 schedule. -/
def sha1Extend (w : List Nat) : List Nat :=
  (List.range 64).foldl
    (fun acc _ =>
      let n := acc.length
      acc ++ [rotl 1 (acc.getD (n - 3) 0 ^^^ acc.getD (n - 8) 0 ^^^
        acc.getD (n - 14) 0 ^^^ acc.getD (n - 16) 0)])
    w

/-- The SHA-1 round function. -/
def sha1F (i b c d : Nat) : Nat :=
  if i < 20 then (b &&& c) ||| ((b ^^^ 4294967295) &&& d)
  else if i < 40 then b ^^^ c ^^^ d
  else if i < 60 then (b &&& c) ||| (b &&& d) ||| (c &&& d)
  else b ^^^ c ^^^ d

/-- The SHA-1 round constants. -/
def sha1K (i : Nat) : Nat :=
  if i < 20 then 1518500249
  else if i < 40 then 1859775393
  else if i < 60 then 2400959708
  else 3395469782

/-- One SHA-1 compression step over a 64-byte block. -/
def sha1Block (h : Nat × Nat × Nat × Nat × Nat) (block : List Byte) :
    Nat × Nat × Nat × Nat × Nat :=
  let w := sha1Extend (toWords block)
  let st := (List.range 80).foldl
    (fun (st : Nat × Nat × Nat × Nat × Nat) i =>
      let (a, b, c, d, e) := st
      ((rotl 5 a + sha1F i b c d + e + sha1K i + w.getD i 0) % M32,
        a, rotl 30 b, c, d))
    h
  ((h.1 + st.1) % M32, (h.2.1 + st.2.1) % M32, (h.2.2.1 + st.2.2.1) % M32,
    (h.2.2.2.1 + st.2.2.2.1) % M32, (h.2.2.2.2 + st.2.2.2.2) % M32)

/-- The SHA-1 digest of a byte sequence, as 20 bytes. -/
def sha1 (msg : List Byte) : List Byte :=
  let h := (toBlocks (sha1pad msg)).foldl sha1Block
    (1732584193, 4023233417, 2562383102, 271733878, 3285377520)
  beBytes4 h.1 ++ beBytes4 h.2.1 ++ beBytes4 h.2.2.1 ++ beBytes4 h.2.2.2.1 ++
    beBytes4 h.2.2.2.2

/-- The standard base64 alphabet. -/
def b64Alphabet : List Char :=
  "ABCDEFGHIJKLMNOPQRSTUVWXYZabcdefghijklmnopqrstuvwxyz0123456789+/".toList

/-- The base64 digit for a 6-bit value. -/
def b64Char (n : Nat) : Char := b64Alphabet.getD n 'A'

/-- Base64 encoding of a byte sequence, with `=` padding. -/
def base64Chars : List Byte → List Char
  | [] => []
  | [b1] => [b64Char (b1 / 4), b64Char (b1 % 4 * 16), '=', '=']
  | [b1, b2] =>
    [b64Char (b1 / 4), b64Char (b1 % 4 * 16 + b2 / 16),
      b64Char (b2 % 16 * 4), '=']
  | b1 :: b2 :: b3 :: rest =>
    b64Char (b1 / 4) :: b64Char (b1 % 4 * 16 + b2 / 16) ::
      b64Char (b2 % 16 * 4 + b3 / 64) :: b64Char (b3 % 64) ::
      base64Chars rest

/-- `base64::encode` on a byte sequence. -/
def base64encode (bs : List Byte) : String := String.mk (base64Chars bs)

/-- The fixed WebSocket GUID of RFC 6455 (`WS_GUID` in `mod.rs`), as
bytes. -/
def WS_GUID : List Byte :=
  "258EAFA5-E914-47DA-95CA-C5AB0DC85B11".toList.map Char.toNat

/-- `derive_accept_key`: SHA-1 over the request key followed by the fixed
GUID, then base64-encode the digest. -/
def derive_accept_key (request_key : List Byte) : String :=
  base64encode (sha1 (request_key ++ WS_GUID))

/-- A toy instance of the parse contract whose complete message is the
first byte of the input: used to exercise the machine on concrete runs. -/
def oneByteMsg : TryParseFn Unit := fun bs =>
  if 1 ≤ bs.length then .ok (some (1, ())) else .ok none

/-- A toy instance of the parse contract whose complete message is the
first two bytes of the input. -/
def twoByteMsg : TryParseFn Unit := fun bs =>
  if 2 ≤ bs.length then .ok (some (2, ())) else .ok none

/-- A toy instance of the parse contract whose complete message is the
first hundred bytes of the input: used to exercise the attack guard on a
suspension that already spent many rounds. -/
def hundredByteMsg : TryParseFn Unit := fun bs =>
  if 100 ≤ bs.length then .ok (some (100, ())) else .ok none

/-- The guard rejects an observation exactly when one of the three rules
fires, and the rejection is always the attack-attempt kind. -/
lemma check_eq_error_iff_firingRule (ac : AttackCheck) (size : Nat) :
    ac.check_incoming_packet_size size = .error .attackAttempt ↔
      (ac.firingRule size).isSome := by
  simp only [AttackCheck.check_incoming_packet_size, AttackCheck.firingRule]
  split_ifs <;> simp

/-- C3: in the Reading state, a read call that completes with exactly 0
bytes transferred makes `single_round` return the terminal
handshake-incomplete protocol error, for every parse contract, buffer and
guard state (so no parse is attempted and no guard observation occurs),
and the outcome is an error, not the retryable WouldBlock. -/
theorem c3_zero_read_is_handshake_incomplete {Obj : Type}
    (P : TryParseFn Obj) (buf : ReadBuffer) (ac : AttackCheck)
    (rest : List ReadEvent) (ws : List WriteEvent) (sink : List Byte) :
    HandshakeMachine.single_round P ⟨.Reading buf ac⟩
      ⟨.chunk [] :: rest, ws, sink⟩ =
      .err (.protocol .handshakeIncomplete) := rfl

/-- C4: `check_incoming_packet_size` first adds one to the packet counter
and the observed size to the byte counter, then rejects with the
attack-attempt error exactly when total bytes exceed 65536, or total
packets exceed 512, or total packets exceed 64 while packets times 128
exceeds total bytes — otherwise it succeeds with the updated counters; and
a single first read of 70000 bytes is rejected. -/
theorem c4_guard_rules (ac : AttackCheck) (size : Nat) :
    (ac.check_incoming_packet_size size =
      if ac.number_of_bytes + size > 65536 ∨
          ac.number_of_packets + 1 > 512 ∨
          (ac.number_of_packets + 1 > 64 ∧
            (ac.number_of_packets + 1) * 128 > ac.number_of_bytes + size) then
        .error .attackAttempt
      else
        .ok ⟨ac.number_of_packets + 1, ac.number_of_bytes + size⟩) ∧
    AttackCheck.new.check_incoming_packet_size 70000 =
      .error .attackAttempt := by
  constructor
  · simp only [AttackCheck.check_incoming_packet_size, MAX_BYTES, MAX_PACKETS,
      MIN_PACKET_SIZE, MIN_PACKET_CHECK_THRESHOLD]
    split_ifs <;> first | rfl | omega
  · rfl

set_option maxRecDepth 4000 in
/-- C5: after 512 one-byte observations the 513th is rejected by the
packet-count rule (the byte-count rule's bound is not exceeded there);
after 511 one-byte observations the 512th passes the packet-count bound
(strict greater-than) yet is rejected by the small-packet-ratio rule, as is
already the 65th observation, the first past the 64-call warm-up; and the
513th call's rejection is the attack-attempt error of the code's check. -/
theorem c5_one_byte_flood :
    AttackCheck.firingRule
        (driveGuard AttackCheck.new (List.replicate 512 1)) 1 =
      some .packetRule ∧
    ¬ (driveGuard AttackCheck.new
        (List.replicate 512 1)).number_of_bytes + 1 > MAX_BYTES ∧
    ¬ (driveGuard AttackCheck.new
        (List.replicate 511 1)).number_of_packets + 1 > MAX_PACKETS ∧
    AttackCheck.firingRule
        (driveGuard AttackCheck.new (List.replicate 511 1)) 1 =
      some .smallPacketRule ∧
    AttackCheck.firingRule
        (driveGuard AttackCheck.new (List.replicate 64 1)) 1 =
      some .smallPacketRule ∧
    (driveGuard AttackCheck.new
        (List.replicate 512 1)).check_incoming_packet_size 1 =
      .error .attackAttempt := by
  refine ⟨by decide, by decide, by decide, by decide, by decide, by rfl⟩

/-- C7: when the underlying read or write reports would-block,
`single_round` returns `RoundResult.wouldBlock` carrying a machine whose
state is unchanged — in the Reading state the same unconsumed buffer bytes
and the same two guard counters, in the Writing state the same payload and
flushed position — with only the would-block outcome consumed from the
stream's script. -/
theorem c7_wouldblock_preserves_state {Obj : Type} (P : TryParseFn Obj)
    (buf : ReadBuffer) (ac : AttackCheck) (c : WCursor)
    (rrest : List ReadEvent) (ws : List WriteEvent)
    (rs : List ReadEvent) (wrest : List WriteEvent) (sink sink2 : List Byte)
    (h : c.pos < c.payload.length) :
    HandshakeMachine.single_round P ⟨.Reading buf ac⟩
        ⟨.wouldBlock :: rrest, ws, sink⟩ =
      .ok (.wouldBlock ⟨.Reading buf ac⟩, ⟨rrest, ws, sink⟩) ∧
    HandshakeMachine.single_round P ⟨.Writing c⟩
        ⟨rs, .wouldBlock :: wrest, sink2⟩ =
      .ok (.wouldBlock ⟨.Writing c⟩, ⟨rs, wrest, sink2⟩) := by
  constructor
  · rfl
  · simp only [HandshakeMachine.single_round, WCursor.has_remaining]
    rw [if_pos (by simpa using h)]

/-- Witness for C7 at a concrete machine and stream. -/
theorem c7_wouldblock_preserves_state_witness :
    HandshakeMachine.single_round oneByteMsg ⟨.Reading ⟨[3]⟩ ⟨1, 1⟩⟩
        ⟨[.wouldBlock, .chunk [5]], [], []⟩ =
      .ok (.wouldBlock ⟨.Reading ⟨[3]⟩ ⟨1, 1⟩⟩, ⟨[.chunk [5]], [], []⟩) ∧
    HandshakeMachine.single_round oneByteMsg ⟨.Writing ⟨[8, 9], 1⟩⟩
        ⟨[], [.wouldBlock, .accept 1], []⟩ =
      .ok (.wouldBlock ⟨.Writing ⟨[8, 9], 1⟩⟩, ⟨[], [.accept 1], []⟩) :=
  c7_wouldblock_preserves_state oneByteMsg ⟨[3]⟩ ⟨1, 1⟩ ⟨[8, 9], 1⟩
    [.chunk [5]] [] [] [.accept 1] [] [] (by decide)

set_option maxRecDepth 10000 in
/-- C9: `derive_accept_key` on the RFC 6455 sample nonce yields exactly the
RFC's accept value, and for every input it is the base64 encoding of the
SHA-1 digest of the request key concatenated with the fixed 36-byte
GUID. -/
theorem c9_derive_accept_key :
    derive_accept_key ("dGhlIHNhbXBsZSBub25jZQ==".toList.map Char.toNat) =
      "s3pPLMBiTxaQ9kYGzzhZRbK+xOo=" ∧
    ∀ key : List Byte,
      derive_accept_key key = base64encode (sha1 (key ++ WS_GUID)) :=
  ⟨by decide, fun _ => rfl⟩

/-- Evaluation of a writing round, on a cursor with unflushed bytes, when
the stream accepts a positive capacity smaller than the remaining bytes:
the round is Incomplete, the accepted bytes go to the sink, and the cursor
advances by the transferred count. -/
lemma single_round_write_accept_incomplete {Obj : Type} (P : TryParseFn Obj)
    (payload : List Byte) (pos cap : Nat) (rs : List ReadEvent)
    (wrest : List WriteEvent) (sink : List Byte)
    (hpos : pos < payload.length) (hc : 0 < cap)
    (hlt : pos + min cap (payload.length - pos) < payload.length) :
    HandshakeMachine.single_round P ⟨.Writing ⟨payload, pos⟩⟩
        ⟨rs, .accept cap :: wrest, sink⟩ =
      .ok (.incomplete
          ⟨.Writing ⟨payload, pos + min cap (payload.length - pos)⟩⟩,
        ⟨rs, wrest,
          sink ++ (payload.drop pos).take
            (min cap (payload.length - pos))⟩) := by
  have hr : 0 < (payload.drop pos).length := by
    simp only [List.length_drop]
    omega
  simp [HandshakeMachine.single_round, WCursor.has_remaining, WCursor.chunk,
    WCursor.advance, hpos, hc, hr, List.length_drop, hlt]

/-- Evaluation of a writing round, on a cursor with unflushed bytes, when
the stream accepts a capacity covering all remaining bytes: the stage
finishes and the remaining bytes go to the sink. -/
lemma single_round_write_accept_done {Obj : Type} (P : TryParseFn Obj)
    (payload : List Byte) (pos cap : Nat) (rs : List ReadEvent)
    (wrest : List WriteEvent) (sink : List Byte)
    (hpos : pos < payload.length) (hc : 0 < cap)
    (hge : payload.length ≤ pos + min cap (payload.length - pos)) :
    HandshakeMachine.single_round P ⟨.Writing ⟨payload, pos⟩⟩
        ⟨rs, .accept cap :: wrest, sink⟩ =
      .ok (.stageFinished .doneWriting,
        ⟨rs, wrest,
          sink ++ (payload.drop pos).take
            (min cap (payload.length - pos))⟩) := by
  have hr : 0 < (payload.drop pos).length := by
    simp only [List.length_drop]
    omega
  have hnlt : ¬ pos + min cap (payload.length - pos) < payload.length := by
    omega
  simp [HandshakeMachine.single_round, WCursor.has_remaining, WCursor.chunk,
    WCursor.advance, hpos, hc, hr, List.length_drop, hnlt]

/-- C10: the Writing branch's two assertions.  `start_write` on an empty
payload makes the very first round fail the remaining-data assertion
(panic); on a cursor with unflushed bytes a round never panics when the
stream's non-blocked writes accept a positive count, and the machines
carried by WouldBlock and Incomplete results keep the payload with a
flushed position still short of the end, so rounds reached only through
those results keep both assertions true. -/
theorem c10_write_branch_assertions {Obj : Type} (P : TryParseFn Obj)
    (payload : List Byte) (pos : Nat) (ev : WriteEvent)
    (wrest : List WriteEvent) (s : MStream) (rs : List ReadEvent)
    (sink : List Byte) (m1 : HandshakeMachine) (s1 : MStream)
    (hpos : pos < payload.length)
    (hcap : ∀ cap ∈ caps [ev], 0 < cap) :
    HandshakeMachine.single_round P (HandshakeMachine.start_write []) s =
      .panicked ∧
    HandshakeMachine.single_round P ⟨.Writing ⟨payload, pos⟩⟩
        ⟨rs, ev :: wrest, sink⟩ ≠ .panicked ∧
    (HandshakeMachine.single_round P ⟨.Writing ⟨payload, pos⟩⟩
        ⟨rs, ev :: wrest, sink⟩ = .ok (.wouldBlock m1, s1) →
      m1 = ⟨.Writing ⟨payload, pos⟩⟩) ∧
    (HandshakeMachine.single_round P ⟨.Writing ⟨payload, pos⟩⟩
        ⟨rs, ev :: wrest, sink⟩ = .ok (.incomplete m1, s1) →
      ∃ pos1, m1 = ⟨.Writing ⟨payload, pos1⟩⟩ ∧ pos1 < payload.length) := by
  have hstepWB : HandshakeMachine.single_round P ⟨.Writing ⟨payload, pos⟩⟩
      ⟨rs, WriteEvent.wouldBlock :: wrest, sink⟩ =
      .ok (.wouldBlock ⟨.Writing ⟨payload, pos⟩⟩, ⟨rs, wrest, sink⟩) := by
    simp [HandshakeMachine.single_round, WCursor.has_remaining, hpos]
  refine ⟨rfl, ?_, ?_, ?_⟩
  · cases ev with
    | wouldBlock => rw [hstepWB]; simp
    | accept cap =>
      have hc : 0 < cap := hcap cap (by simp [caps])
      by_cases hlt : pos + min cap (payload.length - pos) < payload.length
      · rw [single_round_write_accept_incomplete P payload pos cap rs wrest
          sink hpos hc hlt]
        simp
      · rw [single_round_write_accept_done P payload pos cap rs wrest sink
          hpos hc (by omega)]
        simp
  · cases ev with
    | wouldBlock =>
      rw [hstepWB]
      intro h
      simp only [RustResult.ok.injEq, Prod.mk.injEq,
        RoundResult.wouldBlock.injEq] at h
      exact h.1.symm
    | accept cap =>
      have hc : 0 < cap := hcap cap (by simp [caps])
      by_cases hlt : pos + min cap (payload.length - pos) < payload.length
      · rw [single_round_write_accept_incomplete P payload pos cap rs wrest
          sink hpos hc hlt]
        intro h
        simp at h
      · rw [single_round_write_accept_done P payload pos cap rs wrest sink
          hpos hc (by omega)]
        intro h
        simp at h
  · cases ev with
    | wouldBlock =>
      rw [hstepWB]
      intro h
      simp at h
    | accept cap =>
      have hc : 0 < cap := hcap cap (by simp [caps])
      by_cases hlt : pos + min cap (payload.length - pos) < payload.length
      · rw [single_round_write_accept_incomplete P payload pos cap rs wrest
          sink hpos hc hlt]
        intro h
        simp only [RustResult.ok.injEq, Prod.mk.injEq,
          RoundResult.incomplete.injEq] at h
        exact ⟨pos + min cap (payload.length - pos), h.1.symm, hlt⟩
      · rw [single_round_write_accept_done P payload pos cap rs wrest sink
          hpos hc (by omega)]
        intro h
        simp at h

/-- Witness for C10 at a concrete machine, stream and round. -/
theorem c10_write_branch_assertions_witness :
    HandshakeMachine.single_round oneByteMsg
        (HandshakeMachine.start_write []) ⟨[], [.accept 3], []⟩ =
      .panicked ∧
    HandshakeMachine.single_round oneByteMsg
        ⟨.Writing ⟨[5, 6, 7], 1⟩⟩ ⟨[], [.accept 1, .accept 9], []⟩ ≠
      .panicked ∧
    (HandshakeMachine.single_round oneByteMsg
        ⟨.Writing ⟨[5, 6, 7], 1⟩⟩ ⟨[], [.accept 1, .accept 9], []⟩ =
        .ok (.wouldBlock ⟨.Writing ⟨[5, 6, 7], 2⟩⟩,
          ⟨[], [.accept 9], [6]⟩) →
      (⟨.Writing ⟨[5, 6, 7], 2⟩⟩ : HandshakeMachine) =
        ⟨.Writing ⟨[5, 6, 7], 1⟩⟩) ∧
    (HandshakeMachine.single_round oneByteMsg
        ⟨.Writing ⟨[5, 6, 7], 1⟩⟩ ⟨[], [.accept 1, .accept 9], []⟩ =
        .ok (.incomplete ⟨.Writing ⟨[5, 6, 7], 2⟩⟩,
          ⟨[], [.accept 9], [6]⟩) →
      ∃ pos1, (⟨.Writing ⟨[5, 6, 7], 2⟩⟩ : HandshakeMachine) =
        ⟨.Writing ⟨[5, 6, 7], pos1⟩⟩ ∧ pos1 < [5, 6, 7].length) :=
  c10_write_branch_assertions oneByteMsg [5, 6, 7] 1 (.accept 1)
    [.accept 9] ⟨[], [.accept 3], []⟩ [] [] ⟨.Writing ⟨[5, 6, 7], 2⟩⟩
    ⟨[], [.accept 9], [6]⟩ (by decide) (by decide)

/-- One driving step on a would-block write outcome changes nothing. -/
lemma driveWrite_wouldBlock_step (payload : List Byte) (pos : Nat)
    (tail : List WriteEvent) (hpos : pos < payload.length) :
    driveWrite ⟨.Writing ⟨payload, pos⟩⟩ (.wouldBlock :: tail) =
      driveWrite ⟨.Writing ⟨payload, pos⟩⟩ tail := by
  have h : HandshakeMachine.single_round noParse ⟨.Writing ⟨payload, pos⟩⟩
      ⟨[], WriteEvent.wouldBlock :: tail, []⟩ =
      .ok (.wouldBlock ⟨.Writing ⟨payload, pos⟩⟩, ⟨[], tail, []⟩) := by
    simp [HandshakeMachine.single_round, WCursor.has_remaining, hpos]
  simp [driveWrite, h]

/-- One driving step on an accepted write that leaves bytes unflushed:
the accepted bytes and their count are collected and driving continues
from the advanced cursor. -/
lemma driveWrite_accept_incomplete_step (payload : List Byte)
    (pos cap : Nat) (tail : List WriteEvent) (hpos : pos < payload.length)
    (hc : 0 < cap)
    (hlt : pos + min cap (payload.length - pos) < payload.length) :
    driveWrite ⟨.Writing ⟨payload, pos⟩⟩ (.accept cap :: tail) =
      ((driveWrite ⟨.Writing ⟨payload,
          pos + min cap (payload.length - pos)⟩⟩ tail).1,
        (payload.drop pos).take (min cap (payload.length - pos)) ++
          (driveWrite ⟨.Writing ⟨payload,
            pos + min cap (payload.length - pos)⟩⟩ tail).2.1,
        min cap (payload.length - pos) ::
          (driveWrite ⟨.Writing ⟨payload,
            pos + min cap (payload.length - pos)⟩⟩ tail).2.2) := by
  have hlen : ((payload.drop pos).take
      (min cap (payload.length - pos))).length =
      min cap (payload.length - pos) := by
    simp only [List.length_take, List.length_drop]
    omega
  simp [driveWrite, single_round_write_accept_incomplete noParse payload pos
    cap [] tail [] hpos hc hlt, hlen]

/-- One driving step on an accepted write that covers all remaining bytes:
the stage finishes and later script outcomes are never consumed. -/
lemma driveWrite_accept_done_step (payload : List Byte) (pos cap : Nat)
    (tail : List WriteEvent) (hpos : pos < payload.length) (hc : 0 < cap)
    (hge : payload.length ≤ pos + min cap (payload.length - pos)) :
    driveWrite ⟨.Writing ⟨payload, pos⟩⟩ (.accept cap :: tail) =
      (.ok (some ()),
        (payload.drop pos).take (min cap (payload.length - pos)),
        [min cap (payload.length - pos)]) := by
  have hlen : ((payload.drop pos).take
      (min cap (payload.length - pos))).length =
      min cap (payload.length - pos) := by
    simp only [List.length_take, List.length_drop]
    omega
  simp [driveWrite, single_round_write_accept_done noParse payload pos cap
    [] tail [] hpos hc hge, hlen]

/-- Driving a writing machine whose cursor still has unflushed bytes, over
a script whose non-blocked capacities are positive and offer at least the
missing bytes, completes: it delivers exactly the unflushed bytes, in
order, to the stream's sink, and the per-round transferred counts sum to
the number of missing bytes; outcomes after the finishing round are never
consumed. -/
lemma driveWrite_completes (payload : List Byte) :
    ∀ (evs : List WriteEvent) (rest : List WriteEvent) (pos : Nat),
    pos < payload.length →
    (∀ cap ∈ caps evs, 0 < cap) →
    payload.length - pos ≤ (caps evs).sum →
    ∃ ts, driveWrite ⟨.Writing ⟨payload, pos⟩⟩ (evs ++ rest) =
      (.ok (some ()), payload.drop pos, ts) ∧
      ts.sum = payload.length - pos := by
  intro evs
  induction evs with
  | nil =>
    intro rest pos hpos _ hsum
    exfalso
    simp [caps] at hsum
    omega
  | cons ev evs ih =>
    intro rest pos hpos hcap hsum
    cases ev with
    | wouldBlock =>
      have hcaps : caps (WriteEvent.wouldBlock :: evs) = caps evs := by
        simp [caps]
      rw [hcaps] at hcap hsum
      rw [List.cons_append,
        driveWrite_wouldBlock_step payload pos (evs ++ rest) hpos]
      exact ih rest pos hpos hcap hsum
    | accept cap =>
      have hcaps : caps (WriteEvent.accept cap :: evs) = cap :: caps evs := by
        simp [caps]
      rw [hcaps] at hcap hsum
      have hc : 0 < cap := hcap cap (List.mem_cons_self _ _)
      by_cases hlt : pos + min cap (payload.length - pos) < payload.length
      · have hmincap : min cap (payload.length - pos) = cap := by omega
        rw [List.cons_append, driveWrite_accept_incomplete_step payload pos
          cap (evs ++ rest) hpos hc hlt, hmincap]
        rw [hmincap] at hlt
        obtain ⟨ts, hdrive, hts⟩ := ih rest (pos + cap) hlt
          (fun c hcp => hcap c (List.mem_cons_of_mem _ hcp))
          (by simp only [List.sum_cons] at hsum; omega)
        rw [hdrive]
        have hjoin : (payload.drop pos).take cap ++
            payload.drop (pos + cap) = payload.drop pos := by
          rw [← List.drop_drop cap pos payload]
          exact List.take_append_drop cap (payload.drop pos)
        refine ⟨cap :: ts, ?_, by simp only [List.sum_cons]; omega⟩
        simp [hjoin]
      · have hge := Nat.le_of_not_lt hlt
        have hmin : min cap (payload.length - pos) =
            payload.length - pos := by omega
        rw [List.cons_append, driveWrite_accept_done_step payload pos cap
          (evs ++ rest) hpos hc hge, hmin]
        have htake : (payload.drop pos).take (payload.length - pos) =
            payload.drop pos := by
          rw [← List.length_drop]
          exact List.take_length _
        rw [htake]
        exact ⟨[payload.length - pos], rfl, by simp⟩

/-- C2 counterexample: the claim quantifies over every payload, including
the empty one — but `start_write` on an empty payload makes the very first
round fail the Writing branch's remaining-data assertion, so driving
panics: the payload is never "delivered" and no StageFinished(DoneWriting)
is ever produced. -/
theorem c2_empty_payload_counterexample :
    driveWrite (HandshakeMachine.start_write []) [.accept 1] =
      (.panicked, [], []) := by
  decide

/-- C2 (amended): for every nonempty payload given to `start_write`, and
every stream script whose non-blocked writes accept positive byte counts
summing to at least the payload size — with would-block outcomes
interleaved arbitrarily and arbitrary further outcomes after completion —
driving the machine delivers the full payload to the stream byte-for-byte
in order, produces the single finishing result, consumes no outcome after
it, and the per-round transferred-byte counts sum to the payload length.
(On the empty payload the first round instead fails the remaining-data
assertion: see the counterexample.) -/
theorem c2_write_delivers_payload (payload : List Byte)
    (evs rest : List WriteEvent) (h1 : payload ≠ [])
    (h2 : ∀ cap ∈ caps evs, 0 < cap)
    (h3 : payload.length ≤ (caps evs).sum) :
    ∃ ts, driveWrite (HandshakeMachine.start_write payload) (evs ++ rest) =
      (.ok (some ()), payload, ts) ∧ ts.sum = payload.length := by
  have hpos : 0 < payload.length := List.length_pos.mpr h1
  have := driveWrite_completes payload evs rest 0 hpos h2 (by omega)
  simpa [HandshakeMachine.start_write] using this

/-- Witness for C2 at a concrete payload and script. -/
theorem c2_write_delivers_payload_witness :
    ∃ ts, driveWrite (HandshakeMachine.start_write [1, 2, 3])
        ([.accept 2, .wouldBlock, .accept 5] ++ [.accept 7]) =
      (.ok (some ()), [1, 2, 3], ts) ∧ ts.sum = [1, 2, 3].length :=
  c2_write_delivers_payload [1, 2, 3] [.accept 2, .wouldBlock, .accept 5]
    [.accept 7] (by decide) (by decide) (by decide)

/-- C8: for every fuel bound, role, initial machine and stream script, the
owning driver `MidHandshake.handshake` and the non-owning driver
`NonOwningMidHandshake.handshake` produce identical outcomes: the same
final result (the owning flavor additionally returning the stream), an
interruption carrying the same role and machine, or a failure carrying the
same error; fuel exhaustion coincides as well. -/
theorem c8_owning_nonowning_equivalent {ρ Obj R : Type} (fuel : Nat)
    (step : RoleStep ρ Obj R) (P : TryParseFn Obj) (role : ρ)
    (mach : HandshakeMachine) (s : MStream) :
    MidHandshake.handshake fuel step P ⟨role, mach, s⟩ =
      (NonOwningMidHandshake.handshake fuel step P ⟨role, mach⟩ s).map
        toOwning := by
  induction fuel generalizing role mach s with
  | zero => rfl
  | succ n ih =>
    cases hsr : mach.single_round P s with
    | panicked =>
      simp [MidHandshake.handshake, NonOwningMidHandshake.handshake, hsr,
        toOwning]
    | err e =>
      simp [MidHandshake.handshake, NonOwningMidHandshake.handshake, hsr,
        toOwning]
    | ok pr =>
      obtain ⟨rr, s1⟩ := pr
      cases rr with
      | wouldBlock m =>
        simp [MidHandshake.handshake, NonOwningMidHandshake.handshake, hsr,
          toOwning]
      | incomplete m =>
        simp [MidHandshake.handshake, NonOwningMidHandshake.handshake, hsr,
          ih]
      | stageFinished st =>
        cases hst : step role st with
        | error e =>
          simp [MidHandshake.handshake, NonOwningMidHandshake.handshake,
            hsr, hst, toOwning]
        | ok pr2 =>
          obtain ⟨pres, role1⟩ := pr2
          cases pres with
          | cont m =>
            simp [MidHandshake.handshake, NonOwningMidHandshake.handshake,
              hsr, hst, ih]
          | done r =>
            simp [MidHandshake.handshake, NonOwningMidHandshake.handshake,
              hsr, hst, toOwning]

/-- The guard accepts an observation when the byte total stays within the
ceiling and the packet count stays within the warm-up threshold. -/
lemma check_ok_of_small (p b size : Nat)
    (hbytes : b + size ≤ MAX_BYTES)
    (hpk : p + 1 ≤ MIN_PACKET_CHECK_THRESHOLD) :
    AttackCheck.check_incoming_packet_size ⟨p, b⟩ size =
      .ok ⟨p + 1, b + size⟩ := by
  have h1 : ¬ b + size > MAX_BYTES := by omega
  have h2 : ¬ p + 1 > MAX_PACKETS := by
    simp only [MAX_PACKETS]
    simp only [MIN_PACKET_CHECK_THRESHOLD] at hpk
    omega
  have h3 : ¬ (p + 1 > MIN_PACKET_CHECK_THRESHOLD ∧
      (p + 1) * MIN_PACKET_SIZE > b + size) := by
    intro h
    exact absurd hpk (by omega)
  simp only [AttackCheck.check_incoming_packet_size]
  rw [if_neg h1, if_neg h2, if_neg h3]

/-- Evaluation of a reading round on a successful read whose grown buffer
does not yet parse: the round is Incomplete, the machine keeps the grown
buffer and the incremented guard counters. -/
lemma single_round_read_incomplete {Obj : Type} (P : TryParseFn Obj)
    (acc data : List Byte) (p b : Nat) (rrest : List ReadEvent)
    (ws : List WriteEvent) (sink : List Byte)
    (hd : data.length ≠ 0)
    (hbytes : b + data.length ≤ MAX_BYTES)
    (hpk : p + 1 ≤ MIN_PACKET_CHECK_THRESHOLD)
    (hparse : P (acc ++ data) = .ok none) :
    HandshakeMachine.single_round P ⟨.Reading ⟨acc⟩ ⟨p, b⟩⟩
        ⟨.chunk data :: rrest, ws, sink⟩ =
      .ok (.incomplete ⟨.Reading ⟨acc ++ data⟩ ⟨p + 1, b + data.length⟩⟩,
        ⟨rrest, ws, sink⟩) := by
  simp [HandshakeMachine.single_round, hd, ReadBuffer.append,
    ReadBuffer.chunk, check_ok_of_small p b data.length hbytes hpk, hparse]

/-- Evaluation of a reading round on a successful read whose grown buffer
parses completely: the stage finishes with the parsed object and the bytes
after the consumed prefix as the tail. -/
lemma single_round_read_finished {Obj : Type} (P : TryParseFn Obj)
    (acc data : List Byte) (p b size : Nat) (obj : Obj)
    (rrest : List ReadEvent) (ws : List WriteEvent) (sink : List Byte)
    (hd : data.length ≠ 0)
    (hbytes : b + data.length ≤ MAX_BYTES)
    (hpk : p + 1 ≤ MIN_PACKET_CHECK_THRESHOLD)
    (hparse : P (acc ++ data) = .ok (some (size, obj))) :
    HandshakeMachine.single_round P ⟨.Reading ⟨acc⟩ ⟨p, b⟩⟩
        ⟨.chunk data :: rrest, ws, sink⟩ =
      .ok (.stageFinished (.doneReading obj ((acc ++ data).drop size)),
        ⟨rrest, ws, sink⟩) := by
  simp [HandshakeMachine.single_round, hd, ReadBuffer.append,
    ReadBuffer.chunk, ReadBuffer.advance, ReadBuffer.into_vec,
    check_ok_of_small p b data.length hbytes hpk, hparse]

/-- Driving through the chunks of a read script: when each chunk is
nonempty, the chunking stays within the guard's warm-up and byte bounds,
the buffered bytes plus the script's bytes form the message plus the
trailing bytes, and the message is not complete before the final chunk,
the drive finishes with the parsed object and exactly the trailing bytes
as tail. -/
lemma driveRead_chunked_aux {Obj : Type} (P : TryParseFn Obj)
    (msg extra : List Byte) (obj : Obj)
    (hP1 : ∀ bs, msg <+: bs → P bs = .ok (some (msg.length, obj)))
    (hP2 : ∀ bs, bs.length < msg.length → bs <+: msg → P bs = .ok none) :
    ∀ (cs : List (List Byte)) (acc : List Byte) (p b : Nat),
    cs ≠ [] →
    (∀ c ∈ cs, c.length ≠ 0) →
    acc ++ cs.flatten = msg ++ extra →
    (∀ ds, ds <+: cs → ds ≠ cs → (acc ++ ds.flatten).length < msg.length) →
    p + cs.length ≤ MIN_PACKET_CHECK_THRESHOLD →
    b + (cs.map List.length).sum ≤ MAX_BYTES →
    driveRead P ⟨.Reading ⟨acc⟩ ⟨p, b⟩⟩ (cs.map ReadEvent.chunk) =
      .ok (some (.doneReading obj extra)) := by
  intro cs
  induction cs with
  | nil => intro acc p b hcs; exact absurd rfl hcs
  | cons c cs ih =>
    intro acc p b _ hne hcat hlate hp hb
    have hc : c.length ≠ 0 := hne c (by simp)
    cases cs with
    | nil =>
      have hcat2 : acc ++ c = msg ++ extra := by simpa using hcat
      have hbytes : b + c.length ≤ MAX_BYTES := by simpa using hb
      have hpk : p + 1 ≤ MIN_PACKET_CHECK_THRESHOLD := by simpa using hp
      have hparse : P (acc ++ c) = .ok (some (msg.length, obj)) := by
        apply hP1
        rw [hcat2]
        exact List.prefix_append msg extra
      rw [List.map_cons, List.map_nil, driveRead,
        single_round_read_finished P acc c p b msg.length obj [] [] []
          hc hbytes hpk hparse, hcat2, List.drop_left]
    | cons c2 cs2 =>
      have hbytes : b + c.length ≤ MAX_BYTES := by
        simp only [List.map_cons, List.sum_cons] at hb
        omega
      have hpk : p + 1 ≤ MIN_PACKET_CHECK_THRESHOLD := by
        simp only [List.length_cons] at hp
        omega
      have hcat2 : (acc ++ c) ++ (c2 :: cs2).flatten = msg ++ extra := by
        rw [List.append_assoc, ← List.flatten_cons]
        exact hcat
      have hlt : (acc ++ c).length < msg.length := by
        have := hlate [c] ⟨c2 :: cs2, rfl⟩ (by simp)
        simpa using this
      have hpfx : acc ++ c <+: msg :=
        List.prefix_of_prefix_length_le ⟨(c2 :: cs2).flatten, hcat2⟩
          (List.prefix_append msg extra) (by omega)
      have hparse : P (acc ++ c) = .ok none := hP2 _ hlt hpfx
      rw [List.map_cons, driveRead,
        single_round_read_incomplete P acc c p b
          ((c2 :: cs2).map ReadEvent.chunk) [] [] hc hbytes hpk hparse]
      apply ih (acc ++ c) (p + 1) (b + c.length) (by simp)
        (fun d hd => hne d (List.mem_cons_of_mem _ hd)) hcat2
      · intro ds hds hneq
        have hds2 : c :: ds <+: c :: c2 :: cs2 :=
          List.cons_prefix_cons.mpr ⟨rfl, hds⟩
        have hneq2 : c :: ds ≠ c :: c2 :: cs2 := by
          intro h
          exact hneq (by injection h)
        have := hlate (c :: ds) hds2 hneq2
        simpa [List.flatten_cons, List.append_assoc] using this
      · simp only [List.length_cons] at hp ⊢
        omega
      · simp only [List.map_cons, List.sum_cons] at hb ⊢
        omega

/-- C1 counterexample: with the one-byte message contract, the chunking
`[9]; [7]` concatenates to the complete message `[9]` followed by the one
trailing byte `[7]` — yet driving finishes with an empty tail, not `[7]`:
the machine stops reading at the round in which the message completes, so
trailing bytes arriving only in later chunks never reach the tail. -/
theorem c1_tail_counterexample :
    driveRead oneByteMsg HandshakeMachine.start_read
        [.chunk [9], .chunk [7]] = .ok (some (.doneReading () [])) ∧
    driveRead oneByteMsg HandshakeMachine.start_read
        [.chunk [9], .chunk [7]] ≠ .ok (some (.doneReading () [7])) := by
  exact ⟨by decide, by decide⟩

/-- C1 (amended): for every chunking of the message plus trailing bytes
into nonempty chunks in which the message is complete only once the final
chunk arrives, and which stays within the guard's warm-up bounds (at most
64 chunks, at most 65536 bytes), driving a machine created by `start_read`
ends in StageFinished(DoneReading) whose tail is exactly the trailing
bytes.  (When the message completes on an earlier chunk, the tail only
holds the trailing bytes read by that round: see the counterexample.) -/
theorem c1_tail_equals_trailing_bytes {Obj : Type} (P : TryParseFn Obj)
    (msg extra : List Byte) (obj : Obj) (cs : List (List Byte))
    (hP1 : ∀ bs, msg <+: bs → P bs = .ok (some (msg.length, obj)))
    (hP2 : ∀ bs, bs.length < msg.length → bs <+: msg → P bs = .ok none)
    (hcs : cs ≠ [])
    (hne : ∀ c ∈ cs, c.length ≠ 0)
    (hcat : cs.flatten = msg ++ extra)
    (hlate : ∀ ds, ds <+: cs → ds ≠ cs → ds.flatten.length < msg.length)
    (hp : cs.length ≤ MIN_PACKET_CHECK_THRESHOLD)
    (hb : (cs.map List.length).sum ≤ MAX_BYTES) :
    driveRead P HandshakeMachine.start_read (cs.map ReadEvent.chunk) =
      .ok (some (.doneReading obj extra)) := by
  have h := driveRead_chunked_aux P msg extra obj hP1 hP2 cs [] 0 0 hcs hne
    (by simpa using hcat) (fun ds h1 h2 => by simpa using hlate ds h1 h2)
    (by simpa using hp) (by simpa using hb)
  simpa [HandshakeMachine.start_read, ReadBuffer.new, AttackCheck.new]
    using h

/-- The two-byte contract parses a complete object on buffers holding the
whole message. -/
lemma twoByteMsg_complete (bs : List Byte)
    (h : ([4, 5] : List Byte) <+: bs) :
    twoByteMsg bs = .ok (some (2, ())) := by
  have h2 : 2 ≤ bs.length := by simpa using h.length_le
  simp [twoByteMsg, h2]

/-- The two-byte contract reports incompletion on shorter buffers. -/
lemma twoByteMsg_needs_more (bs : List Byte)
    (h : bs.length < ([4, 5] : List Byte).length) :
    twoByteMsg bs = .ok none := by
  have h2 : ¬ 2 ≤ bs.length := by
    simp only [List.length_cons, List.length_nil] at h
    omega
  simp [twoByteMsg, h2]

/-- Witness for C1 (amended) at a concrete message, chunking and trailing
byte. -/
theorem c1_tail_equals_trailing_bytes_witness :
    driveRead twoByteMsg HandshakeMachine.start_read
        ([[4, 5, 7]].map ReadEvent.chunk) =
      .ok (some (.doneReading () [7])) :=
  c1_tail_equals_trailing_bytes twoByteMsg [4, 5] [7] () [[4, 5, 7]]
    (fun bs h => twoByteMsg_complete bs h)
    (fun bs h _ => twoByteMsg_needs_more bs h)
    (by simp)
    (by decide)
    (by decide)
    (by
      intro ds hds hneq
      rcases hds with ⟨t, ht⟩
      cases ds with
      | nil => simp
      | cons d ds2 =>
        simp only [List.cons_append, List.cons.injEq] at ht
        obtain ⟨rfl, ht2⟩ := ht
        obtain ⟨rfl, rfl⟩ := List.append_eq_nil.mp ht2
        exact absurd rfl hneq)
    (by decide)
    (by decide)

/-- C6 counterexample: the claim has no carve-out for the attack guard,
but a reading machine legitimately suspended after 64 one-byte Incomplete
rounds of a 100-byte message (counters 64 packets, 64 bytes — the 64th
such round is shown to return exactly this machine) trips the
small-packet-ratio rule when resumed with the remaining 36 bytes
(65 packets, 65·128 > 100): resumption fails with the attack-attempt
error, while a fresh machine given all 100 bytes in a single read
finishes with DoneReading — so resumption and one-shot diverge. -/
theorem c6_guard_divergence_counterexample :
    HandshakeMachine.single_round hundredByteMsg
        ⟨.Reading ⟨List.replicate 63 0⟩ ⟨63, 63⟩⟩
        ⟨[.chunk [0]], [], []⟩ =
      .ok (.incomplete ⟨.Reading ⟨List.replicate 64 0⟩ ⟨64, 64⟩⟩,
        ⟨[], [], []⟩) ∧
    HandshakeMachine.single_round hundredByteMsg
        ⟨.Reading ⟨List.replicate 64 0⟩ ⟨64, 64⟩⟩
        ⟨[.chunk (List.replicate 36 0)], [], []⟩ =
      .err .attackAttempt ∧
    HandshakeMachine.single_round hundredByteMsg
        HandshakeMachine.start_read
        ⟨[.chunk (List.replicate 100 0)], [], []⟩ =
      .ok (.stageFinished (.doneReading () []), ⟨[], [], []⟩) := by
  refine ⟨by decide, by decide, by decide⟩

/-- C6 (amended): a reading machine suspended mid-message — its buffer
holding a proper prefix of the message, with guard counters within the
warm-up bounds, so that the guard accepts the resuming observation — when
resumed with all remaining bytes finishes with the same parsed object and
the same tail that a fresh machine produces when given all the bytes in a
single read.  (A suspension that already spent the warm-up rounds can
instead be rejected by the guard on resumption: see the counterexample.) -/
theorem c6_resume_equals_oneshot {Obj : Type} (P : TryParseFn Obj)
    (msg extra acc : List Byte) (obj : Obj) (p b : Nat)
    (rrest rrest2 : List ReadEvent) (ws ws2 : List WriteEvent)
    (sink sink2 : List Byte)
    (hP1 : ∀ bs, msg <+: bs → P bs = .ok (some (msg.length, obj)))
    (hacc : acc <+: msg) (hlt : acc.length < msg.length)
    (hg1 : b + (msg.length - acc.length + extra.length) ≤ MAX_BYTES)
    (hg2 : p + 1 ≤ MIN_PACKET_CHECK_THRESHOLD)
    (hg3 : msg.length + extra.length ≤ MAX_BYTES) :
    HandshakeMachine.single_round P ⟨.Reading ⟨acc⟩ ⟨p, b⟩⟩
        ⟨.chunk (msg.drop acc.length ++ extra) :: rrest, ws, sink⟩ =
      .ok (.stageFinished (.doneReading obj extra), ⟨rrest, ws, sink⟩) ∧
    HandshakeMachine.single_round P HandshakeMachine.start_read
        ⟨.chunk (msg ++ extra) :: rrest2, ws2, sink2⟩ =
      .ok (.stageFinished (.doneReading obj extra),
        ⟨rrest2, ws2, sink2⟩) := by
  have hjoin : acc ++ (msg.drop acc.length ++ extra) = msg ++ extra := by
    have h1 : acc ++ msg.drop acc.length = msg := by
      nth_rewrite 1 [List.prefix_iff_eq_take.mp hacc]
      exact List.take_append_drop acc.length msg
    rw [← List.append_assoc, h1]
  have hdl : (msg.drop acc.length ++ extra).length =
      msg.length - acc.length + extra.length := by
    simp [List.length_drop]
  constructor
  · have hd : (msg.drop acc.length ++ extra).length ≠ 0 := by omega
    have hbytes : b + (msg.drop acc.length ++ extra).length ≤ MAX_BYTES := by
      omega
    have hparse : P (acc ++ (msg.drop acc.length ++ extra)) =
        .ok (some (msg.length, obj)) := by
      apply hP1
      rw [hjoin]
      exact List.prefix_append msg extra
    rw [single_round_read_finished P acc (msg.drop acc.length ++ extra) p b
      msg.length obj rrest ws sink hd hbytes hg2 hparse, hjoin,
      List.drop_left]
  · have hd : (msg ++ extra).length ≠ 0 := by
      simp only [List.length_append]
      omega
    have hbytes : 0 + (msg ++ extra).length ≤ MAX_BYTES := by
      simp only [List.length_append]
      omega
    have hpk : 0 + 1 ≤ MIN_PACKET_CHECK_THRESHOLD := by
      simp [MIN_PACKET_CHECK_THRESHOLD]
    have hparse : P ([] ++ (msg ++ extra)) = .ok (some (msg.length, obj)) := by
      apply hP1
      simp
    show HandshakeMachine.single_round P ⟨.Reading ⟨[]⟩ ⟨0, 0⟩⟩
        ⟨.chunk (msg ++ extra) :: rrest2, ws2, sink2⟩ = _
    rw [single_round_read_finished P [] (msg ++ extra) 0 0 msg.length obj
      rrest2 ws2 sink2 hd hbytes hpk hparse]
    simp [List.drop_left]

/-- Witness for C6 at a concrete suspended machine and message. -/
theorem c6_resume_equals_oneshot_witness :
    HandshakeMachine.single_round twoByteMsg ⟨.Reading ⟨[4]⟩ ⟨1, 1⟩⟩
        ⟨[.chunk (([4, 5] : List Byte).drop ([4] : List Byte).length ++
          [6])], [], []⟩ =
      .ok (.stageFinished (.doneReading () [6]), ⟨[], [], []⟩) ∧
    HandshakeMachine.single_round twoByteMsg HandshakeMachine.start_read
        ⟨[.chunk ([4, 5] ++ [6])], [], []⟩ =
      .ok (.stageFinished (.doneReading () [6]), ⟨[], [], []⟩) :=
  c6_resume_equals_oneshot twoByteMsg [4, 5] [6] [4] () 1 1 [] [] [] [] []
    []
    (fun bs h => twoByteMsg_complete bs h)
    ⟨[5], rfl⟩ (by decide) (by decide) (by decide) (by decide)

end Tungstenite
